import Mathlib

/-!
Verification of the spectacle structural-reflection library.

The development shallowly embeds the two crates of the repository:

* the runtime traversal protocol of src/src/lib.rs (the trait Introspect,
  the Breadcrumb path vocabulary, and the built-in implementations for
  primitives, arrays, tuples, Option, Result, sequences, sets and maps),
* the code generator of src/spectacle-derive/src/lib.rs (the derive macro
  that synthesizes Introspect implementations for structs and enums),
* the serde_json adapter implementations at the bottom of src/src/lib.rs.

The visitor callback of the Rust code is a pure function invoked once per
visited node; a traversal is therefore fully described by the ordered list
of its invocations.  Every introspection function below returns that list:
each element is the pair of the breadcrumb trail passed to the visitor and
the node handed to it (the type-erased reference argument).  Rust values of
introspectable type are embedded as the inductive type Value, whose
constructors cover the shapes that have built-in implementations together
with the struct and enum shapes produced by the derive macro; derived
implementations always visit self first and then recurse field by field,
so a Value records exactly the information those implementations consult
at run time (for an enum, the active variant and its payload).
-/

namespace Spectacle

/-- Breadcrumb mirrors the enum Breadcrumb of src/src/lib.rs lines 22 to 29:
Variant, Field, Index, TupleIndex and SetMember, with the same payloads
(static strings become String, usize becomes Nat). -/
inductive Breadcrumb where
  | Variant (s : String)
  | Field (s : String)
  | Index (s : String)
  | TupleIndex (n : Nat)
  | SetMember
deriving DecidableEq, Repr

/-- Breadcrumbs mirrors the type alias of src/src/lib.rs line 31.  The Rust
code uses the persistent vector im::vector::Vector; its abstract content is
an ordered sequence of segments, embedded as a Lean list.  The push_back
operation of the source becomes appending a one-element list, and the
persistence of im::vector (cloning then pushing never mutates the original)
is automatic for Lean lists. -/
abbrev Breadcrumbs := List Breadcrumb

/-- Leaf covers the types given the leaf implementation by the
impl_primitive macro of src/src/lib.rs lines 72 to 109: bool, char, the
unsigned and signed integer widths, the two float widths (their payload is
embedded as the raw bit pattern, which the traversal never inspects),
String and static str. -/
inductive Leaf where
  | bool (b : Bool)
  | char (c : Char)
  | u8 (n : Nat)
  | u16 (n : Nat)
  | u32 (n : Nat)
  | u64 (n : Nat)
  | u128 (n : Nat)
  | usize (n : Nat)
  | i8 (n : Int)
  | i16 (n : Int)
  | i32 (n : Int)
  | i64 (n : Int)
  | i128 (n : Int)
  | isize (n : Int)
  | f32 (bits : Nat)
  | f64 (bits : Nat)
  | string (s : String)
  | str (s : String)
deriving DecidableEq, Repr

/-- A key of a HashMap or BTreeMap.  The map implementations of
src/src/lib.rs lines 240 to 264 require K only to implement Debug, and the
single operation they perform on a key is Debug formatting; a key is
therefore embedded by its Debug rendering. -/
structure MapKey where
  debugRepr : String
deriving DecidableEq, Repr

/-- Value embeds the universe of Rust values whose types implement
Introspect through the built-in implementations of src/src/lib.rs or
through code generated by the derive macro of src/spectacle-derive.

* leaf: the primitive implementations (lines 72 to 109).
* structUnit, structNamed, structTuple: the three struct shapes handled by
  impl_introspect_struct and recurse_fields of the derive crate (a Rust
  struct value carries its fields in declaration order).
* enumUnit, enumNamed, enumTuple: a value of a derived enum carries its
  active variant and that variant payload; enumUnit is a fieldless
  variant (impl_introspect_enum and recurse_variants).
* arrayV: the fixed-size array implementations (lines 111 to 140).
* tupleV: the tuple implementations emitted by the impl_tuples arity
  generator (src/impl-tuples/src/lib.rs lines 35 to 57).
* optionV, resultV: lines 144 to 184 (Result is embedded with Sum, inl for
  Ok and inr for Err).
* listV: the sequence implementations of the impl_list macro, lines 186 to
  212 (Vec, VecDeque, LinkedList), which all traverse identically.
* setV: the set implementations of the impl_set macro, lines 214 to 238
  (HashSet, BTreeSet, BinaryHeap); the element list records the iteration
  order the container produces, which for hash-based containers depends on
  the per-process hasher state and not only on the abstract contents.
* mapV: the map implementations of the impl_map macro, lines 240 to 264
  (HashMap, BTreeMap); the entry list records iteration order as well. -/
inductive Value where
  | leaf (l : Leaf)
  | structUnit (name : String)
  | structNamed (name : String) (fs : List (String × Value))
  | structTuple (name : String) (fs : List Value)
  | enumUnit (name : String) (variant : String)
  | enumNamed (name : String) (variant : String) (fs : List (String × Value))
  | enumTuple (name : String) (variant : String) (fs : List Value)
  | arrayV (es : List Value)
  | tupleV (es : List Value)
  | optionV (o : Option Value)
  | resultV (r : Sum Value Value)
  | listV (es : List Value)
  | setV (es : List Value)
  | mapV (entries : List (MapKey × Value))

mutual

/-- introspectFrom v t is the ordered list of visitor invocations performed
by v.introspect_from(t, visit): pairs of the breadcrumb trail and the
visited node.  Every branch mirrors one implementation of the source:

* leaf: visit(and breadcrumbs, self) only, src/src/lib.rs lines 74 to 81;
* structUnit: generated code with no recursion (recurse_fields returns
  None for unit field lists, derive lines 106 to 107);
* structNamed and structTuple: generated self visit then the per-field
  blocks of recurse_fields (derive lines 85 to 98 and 102 to 137);
* enumUnit: generated self visit whose match falls into the default arm,
  since recurse_variants skips fieldless variants (derive lines 148 to 163
  and 211 to 214);
* enumNamed and enumTuple: generated self visit then, for the active
  variant arm, exactly the recurse_fields blocks (derive lines 208 to 243);
  note that the generated code pushes no Variant breadcrumb;
* arrayV and listV: self visit then one Index breadcrumb per position,
  rendered in decimal (lines 111 to 140 and 186 to 212);
* tupleV: self visit then one TupleIndex breadcrumb per slot
  (src/impl-tuples/src/lib.rs lines 44 to 55);
* optionV and resultV: self visit then the held value, if any, under a
  Variant breadcrumb naming Some, Ok or Err (lines 144 to 184);
* setV: self visit then each member under a SetMember breadcrumb
  (lines 214 to 238);
* mapV: self visit then each entry value, never the key, under an Index
  breadcrumb holding the Debug rendering of the key (lines 240 to 264). -/
def introspectFrom : Value → Breadcrumbs → List (Breadcrumbs × Value)
  | Value.leaf l, t => [(t, Value.leaf l)]
  | Value.structUnit n, t => [(t, Value.structUnit n)]
  | Value.structNamed n fs, t =>
      (t, Value.structNamed n fs) :: introspectNamed fs t
  | Value.structTuple n fs, t =>
      (t, Value.structTuple n fs) :: introspectTuple fs t 0
  | Value.enumUnit n v, t => [(t, Value.enumUnit n v)]
  | Value.enumNamed n v fs, t =>
      (t, Value.enumNamed n v fs) :: introspectNamed fs t
  | Value.enumTuple n v fs, t =>
      (t, Value.enumTuple n v fs) :: introspectTuple fs t 0
  | Value.arrayV es, t => (t, Value.arrayV es) :: introspectIndexed es t 0
  | Value.tupleV es, t => (t, Value.tupleV es) :: introspectTuple es t 0
  | Value.optionV Option.none, t => [(t, Value.optionV Option.none)]
  | Value.optionV (Option.some v), t =>
      (t, Value.optionV (Option.some v)) ::
        introspectFrom v (t ++ [Breadcrumb.Variant "Some"])
  | Value.resultV (Sum.inl v), t =>
      (t, Value.resultV (Sum.inl v)) ::
        introspectFrom v (t ++ [Breadcrumb.Variant "Ok"])
  | Value.resultV (Sum.inr e), t =>
      (t, Value.resultV (Sum.inr e)) ::
        introspectFrom e (t ++ [Breadcrumb.Variant "Err"])
  | Value.listV es, t => (t, Value.listV es) :: introspectIndexed es t 0
  | Value.setV es, t => (t, Value.setV es) :: introspectSet es t
  | Value.mapV entries, t => (t, Value.mapV entries) :: introspectMap entries t
termination_by v _ => sizeOf v

/-- Visits contributed by the named fields of a struct or enum variant, in
declaration order: the per-field block emitted by recurse_fields for named
fields (derive lines 108 to 121) clones the trail, pushes Field with the
field name, and recurses into the field value. -/
def introspectNamed :
    List (String × Value) → Breadcrumbs → List (Breadcrumbs × Value)
  | [], _ => []
  | (n, v) :: fs, t =>
      introspectFrom v (t ++ [Breadcrumb.Field n]) ++ introspectNamed fs t
termination_by fs _ => sizeOf fs

/-- Visits contributed by positional fields or tuple slots starting at
position i: the per-field block emitted by recurse_fields for unnamed
fields (derive lines 123 to 135) and the slot blocks of impl_tuples clone
the trail, push TupleIndex with the position, and recurse. -/
def introspectTuple :
    List Value → Breadcrumbs → Nat → List (Breadcrumbs × Value)
  | [], _, _ => []
  | v :: vs, t, i =>
      introspectFrom v (t ++ [Breadcrumb.TupleIndex i]) ++
        introspectTuple vs t (i + 1)
termination_by vs _ _ => sizeOf vs

/-- Visits contributed by the elements of an array or sequence starting at
position i: the loop bodies of impl_array and impl_list clone the trail,
push Index with the decimal rendering of the position, and recurse. -/
def introspectIndexed :
    List Value → Breadcrumbs → Nat → List (Breadcrumbs × Value)
  | [], _, _ => []
  | v :: vs, t, i =>
      introspectFrom v (t ++ [Breadcrumb.Index (toString i)]) ++
        introspectIndexed vs t (i + 1)
termination_by vs _ _ => sizeOf vs

/-- Visits contributed by set members in iteration order: the loop body of
impl_set clones the trail, pushes SetMember, and recurses. -/
def introspectSet : List Value → Breadcrumbs → List (Breadcrumbs × Value)
  | [], _ => []
  | v :: vs, t =>
      introspectFrom v (t ++ [Breadcrumb.SetMember]) ++ introspectSet vs t
termination_by vs _ => sizeOf vs

/-- Visits contributed by map entries in iteration order: the loop body of
impl_map clones the trail, pushes Index with the Debug rendering of the
key, and recurses into the value only. -/
def introspectMap :
    List (MapKey × Value) → Breadcrumbs → List (Breadcrumbs × Value)
  | [], _ => []
  | (k, v) :: es, t =>
      introspectFrom v (t ++ [Breadcrumb.Index k.debugRepr]) ++
        introspectMap es t
termination_by es _ => sizeOf es

end

/-- introspect mirrors the provided trait method of src/src/lib.rs lines 50
to 55, which calls introspect_from with Breadcrumbs::new(), the empty
trail. -/
def introspect (v : Value) : List (Breadcrumbs × Value) :=
  introspectFrom v []

/-!
The serde_json adapter, src/src/lib.rs lines 266 to 340.  A value of type
serde_json::Value is embedded as JValue; the traversal of those
implementations hands the visitor references of several distinct Rust
types (the Value node itself, the Vec of an Array, the Map of an Object,
and the bool, Number and String payloads), collected here in JNode.
serde_json::Number is opaque to the traversal and embedded by its decimal
rendering.
-/

/-- JValue embeds serde_json::Value with its six variants. -/
inductive JValue where
  | Null
  | Bool (b : Bool)
  | Number (n : String)
  | String (s : String)
  | Array (es : List JValue)
  | Object (entries : List (String × JValue))

/-- JNode is the type of nodes handed to the visitor while traversing a
serde_json::Value: the tagged value itself, the inner Vec of an Array, the
inner Map of an Object, or one of the payload types that have their own
leaf implementations. -/
inductive JNode where
  | value (v : JValue)
  | vec (es : List JValue)
  | map (entries : List (String × JValue))
  | boolNode (b : Bool)
  | numberNode (n : String)
  | stringNode (s : String)

mutual

/-- jsonIntrospectFrom mirrors the implementation of Introspect for
serde_json::Value, src/src/lib.rs lines 303 to 340: visit self, then match
on the variant; Bool, Number, String, Array and Object push a Variant
breadcrumb naming the variant and recurse into the payload through that
payload implementation, while the default arm, reached by Null, does
nothing. -/
def jsonIntrospectFrom : JValue → Breadcrumbs → List (Breadcrumbs × JNode)
  | JValue.Null, t => [(t, JNode.value JValue.Null)]
  | JValue.Bool b, t =>
      (t, JNode.value (JValue.Bool b)) ::
        [(t ++ [Breadcrumb.Variant "Bool"], JNode.boolNode b)]
  | JValue.Number n, t =>
      (t, JNode.value (JValue.Number n)) ::
        [(t ++ [Breadcrumb.Variant "Number"], JNode.numberNode n)]
  | JValue.String s, t =>
      (t, JNode.value (JValue.String s)) ::
        [(t ++ [Breadcrumb.Variant "String"], JNode.stringNode s)]
  | JValue.Array es, t =>
      (t, JNode.value (JValue.Array es)) ::
        jsonVecIntrospectFrom es (t ++ [Breadcrumb.Variant "Array"])
  | JValue.Object entries, t =>
      (t, JNode.value (JValue.Object entries)) ::
        jsonMapIntrospectFrom entries (t ++ [Breadcrumb.Variant "Object"])
termination_by v _ => 2 * sizeOf v

/-- jsonVecIntrospectFrom mirrors the Vec implementation of the impl_list
macro as instantiated at element type serde_json::Value: visit the Vec
itself, then each element under an Index breadcrumb with its decimal
position. -/
def jsonVecIntrospectFrom :
    List JValue → Breadcrumbs → List (Breadcrumbs × JNode)
  | es, t => (t, JNode.vec es) :: jsonElems es t 0
termination_by es _ => 2 * sizeOf es + 1

/-- Element visits of a JSON array starting at position i. -/
def jsonElems : List JValue → Breadcrumbs → Nat → List (Breadcrumbs × JNode)
  | [], _, _ => []
  | v :: vs, t, i =>
      jsonIntrospectFrom v (t ++ [Breadcrumb.Index (toString i)]) ++
        jsonElems vs t (i + 1)
termination_by vs _ _ => 2 * sizeOf vs

/-- jsonMapIntrospectFrom mirrors the implementation of Introspect for
serde_json::Map of String to Value, src/src/lib.rs lines 288 to 301: visit
the Map itself, then each entry value under an Index breadcrumb holding
the Display rendering of the key, which for a String key is the string
itself. -/
def jsonMapIntrospectFrom :
    List (String × JValue) → Breadcrumbs → List (Breadcrumbs × JNode)
  | entries, t => (t, JNode.map entries) :: jsonEntries entries t
termination_by entries _ => 2 * sizeOf entries + 1

/-- Entry visits of a JSON object in iteration order. -/
def jsonEntries :
    List (String × JValue) → Breadcrumbs → List (Breadcrumbs × JNode)
  | [], _ => []
  | (k, v) :: es, t =>
      jsonIntrospectFrom v (t ++ [Breadcrumb.Index k]) ++ jsonEntries es t
termination_by es _ => 2 * sizeOf es

end

/-!
The code generator, src/spectacle-derive/src/lib.rs.  The derive macro is a
pure function from one type declaration to a token stream plus emitted
diagnostics; it is embedded at the level of the decisions the claims are
about: which declarations produce an implementation, which diagnostics are
emitted and at which span.  The run-time behaviour of the token stream it
emits for structs and enums is the introspectFrom embedding above.
-/

/-- A generic parameter of the deriving type: syn distinguishes type,
const and lifetime parameters, and create_generic_ident compares the
candidate identifier with the identifier of each kind (derive lines 49 to
53). -/
inductive GenericParam where
  | typeParam (name : String)
  | constParam (name : String)
  | lifetimeParam (name : String)
deriving DecidableEq, Repr

/-- The identifier of a generic parameter, as compared by
create_generic_ident. -/
def GenericParam.name : GenericParam → String
  | GenericParam.typeParam n => n
  | GenericParam.constParam n => n
  | GenericParam.lifetimeParam n => n

/-- The field list shape of a struct or of one enum variant, as
distinguished by recurse_fields: unit, named fields, or unnamed positional
fields (only the count of positional fields matters to the shape). -/
inductive FieldsShape where
  | unitFields
  | namedFields (names : List String)
  | unnamedFields (count : Nat)
deriving DecidableEq, Repr

/-- One enum variant: its name and its field shape. -/
structure VariantShape where
  name : String
  fields : FieldsShape
deriving DecidableEq, Repr

/-- The data shape of the declaration the derive macro is applied to:
struct, enum or union (syn::Data, matched at derive lines 18 to 29). -/
inductive DataShape where
  | structData (fields : FieldsShape)
  | enumData (variants : List VariantShape)
  | unionData
deriving DecidableEq, Repr

/-- The input of one derive invocation: the type name and span, its
generic parameters, and its data shape. -/
structure DeriveInput where
  ident : String
  generics : List GenericParam
  data : DataShape
deriving DecidableEq, Repr

/-- The span a diagnostic is anchored at: both are inside the type
declaration.  The union diagnostic uses the span of the type name (derive
line 23) and the probe-exhaustion diagnostic uses the span of the generics
(derive line 58). -/
inductive Span where
  | typeName (n : String)
  | genericsSpan
deriving DecidableEq, Repr

/-- A diagnostic emitted through emit_error: its anchor span and its
message. -/
structure Diagnostic where
  span : Span
  msg : String
deriving DecidableEq, Repr

/-- The loop of create_generic_ident, derive lines 46 to 66.  The state is
the current candidate identifier and the u8 counter n; while the candidate
collides with some declared parameter the loop moves to F suffixed with n
and increments n, emitting a diagnostic when n reaches 255 (the message
says the u16 range but the counter is a u8).  The result is the chosen
identifier together with whether the diagnostic was emitted.  The counter
is a u8, so a further increment at n equal to 255 is an arithmetic
overflow, which aborts a debug build; that abort is embedded as the none
result.  The none branch is reachable only when all of F and F0 to F254
collide. -/
def genericIdentLoop (names : List String) (ident : String) (n : Nat) :
    Option (String × Bool) :=
  if ident ∈ names then
    if n < 255 then
      match genericIdentLoop names ("F" ++ toString n) (n + 1) with
      | Option.none => Option.none
      | Option.some r => Option.some (r.1, (decide (n + 1 = 255)) || r.2)
    else
      Option.none
  else
    Option.some (ident, false)
termination_by 255 - n

/-- create_generic_ident, derive lines 46 to 66: probe F, then F0, F1 and
so on, against the identifiers of all declared type, const and lifetime
parameters.  Returns the first unused candidate and whether the
probe-exhaustion diagnostic was emitted, or none for the overflow abort. -/
def create_generic_ident (generics : List GenericParam) :
    Option (String × Bool) :=
  genericIdentLoop (generics.map GenericParam.name) "F" 0

/-- The text of the union diagnostic, derive line 24. -/
def unionMsg : String :=
  "Spectacle can only be derived for structs and enums"

/-- The text of the probe-exhaustion diagnostic, derive line 59. -/
def probeMsg : String :=
  "could not generate an appropriate unused type parameter"

/-- The raw result of the derive body before the proc_macro_error wrapper
acts: whether implementation tokens were produced, and the diagnostics
emitted on the way. -/
structure Expansion where
  producedImpl : Bool
  diags : List Diagnostic
deriving DecidableEq, Repr

/-- derive_spectacle, derive lines 10 to 32.  A union emits the
declaration-site diagnostic and returns an empty token stream.  A struct
or enum runs create_generic_ident (inside impl_introspect_struct or
impl_introspect_enum, lines 70 and 145) and always produces an
implementation token stream; the probe-exhaustion diagnostic is carried
along when it was emitted.  The overflow abort of the probe loop
propagates as none.  Field and variant shapes do not influence whether an
implementation is produced. -/
def derive_spectacle (input : DeriveInput) : Option Expansion :=
  match input.data with
  | DataShape.unionData =>
      Option.some
        (Expansion.mk false [Diagnostic.mk (Span.typeName input.ident) unionMsg])
  | _ =>
      match create_generic_ident input.generics with
      | Option.none => Option.none
      | Option.some r =>
          Option.some
            (Expansion.mk true
              (if r.2 then [Diagnostic.mk Span.genericsSpan probeMsg] else []))

/-- Modelled from the documented behaviour of the external
proc_macro_error crate, whose attribute wraps derive_spectacle (derive
line 11): when any diagnostic was emitted during the macro run, the token
output of the macro is replaced by the rendered errors, so no
implementation reaches the compiler; a panic inside the macro likewise
produces no implementation.  True means an Introspect implementation is
actually emitted for the type. -/
def emitsImpl (input : DeriveInput) : Bool :=
  match derive_spectacle input with
  | Option.none => false
  | Option.some e => e.producedImpl && e.diags.isEmpty

/-- The diagnostics reported for one derive invocation (none for the
overflow abort, which a debug build reports as a macro panic instead). -/
def diagnosticsOf (input : DeriveInput) : List Diagnostic :=
  match derive_spectacle input with
  | Option.none => []
  | Option.some e => e.diags

/-- A compilation run applies the derive macro to each annotated
declaration independently; the macro keeps no state across invocations
(derive_spectacle reads nothing but its input). -/
def deriveAll (inputs : List DeriveInput) : List (Option Expansion) :=
  inputs.map derive_spectacle

/-!
Shared lemmas about the traversal functions.
-/

/-- The named-field visits are the concatenation, in declaration order, of
the traversals of the field values, each from the parent trail extended by
the Field segment of that field. -/
theorem introspectNamed_eq (fs : List (String × Value)) (t : Breadcrumbs) :
    introspectNamed fs t =
      fs.flatMap (fun f => introspectFrom f.2 (t ++ [Breadcrumb.Field f.1])) := by
  induction fs with
  | nil => simp [introspectNamed]
  | cons f fs ih =>
      obtain ⟨n, v⟩ := f
      simp [introspectNamed, ih]

/-- The positional-field visits starting at position i are the
concatenation of the traversals of the slot values, each from the parent
trail extended by the TupleIndex segment of its position. -/
theorem introspectTuple_eq (fs : List Value) (t : Breadcrumbs) (i : Nat) :
    introspectTuple fs t i =
      (List.enumFrom i fs).flatMap
        (fun p => introspectFrom p.2 (t ++ [Breadcrumb.TupleIndex p.1])) := by
  induction fs generalizing i with
  | nil => simp [introspectTuple]
  | cons v vs ih => simp [introspectTuple, List.enumFrom_cons, ih]

/-- The element visits of an array or sequence starting at position i are
the concatenation of the element traversals, each from the parent trail
extended by the Index segment with the decimal position. -/
theorem introspectIndexed_eq (es : List Value) (t : Breadcrumbs) (i : Nat) :
    introspectIndexed es t i =
      (List.enumFrom i es).flatMap
        (fun p => introspectFrom p.2 (t ++ [Breadcrumb.Index (toString p.1)])) := by
  induction es generalizing i with
  | nil => simp [introspectIndexed]
  | cons v vs ih => simp [introspectIndexed, List.enumFrom_cons, ih]

/-- The member visits of a set are the concatenation of the member
traversals, each from the parent trail extended by SetMember. -/
theorem introspectSet_eq (es : List Value) (t : Breadcrumbs) :
    introspectSet es t =
      es.flatMap (fun v => introspectFrom v (t ++ [Breadcrumb.SetMember])) := by
  induction es with
  | nil => simp [introspectSet]
  | cons v vs ih => simp [introspectSet, ih]

/-- The entry visits of a map are the concatenation of the traversals of
the entry values, each from the parent trail extended by the Index segment
holding the Debug rendering of the key. -/
theorem introspectMap_eq (entries : List (MapKey × Value)) (t : Breadcrumbs) :
    introspectMap entries t =
      entries.flatMap
        (fun e => introspectFrom e.2 (t ++ [Breadcrumb.Index e.1.debugRepr])) := by
  induction entries with
  | nil => simp [introspectMap]
  | cons e es ih =>
      obtain ⟨k, v⟩ := e
      simp [introspectMap, ih]

/-- Auxiliary form of the trail-shift property, proven by the mutual
functional induction of the traversal: starting a traversal from the trail
s ++ s2 yields exactly the traversal started from s2 with s prepended to
every visited trail.  The second argument of the statement is a dummy
carrier for the induction. -/
theorem introspectFrom_append_aux (v : Value) (u : Breadcrumbs) :
    ∀ s s2 : Breadcrumbs,
      introspectFrom v (s ++ s2) =
        (introspectFrom v s2).map (fun p => (s ++ p.1, p.2)) := by
  induction v, u using introspectFrom.induct
  case motive2 es tt =>
    exact ∀ s s2, introspectMap es (s ++ s2) =
      (introspectMap es s2).map (fun p => (s ++ p.1, p.2))
  case motive3 es tt =>
    exact ∀ s s2, introspectSet es (s ++ s2) =
      (introspectSet es s2).map (fun p => (s ++ p.1, p.2))
  case motive4 es tt i =>
    exact ∀ s s2, introspectIndexed es (s ++ s2) i =
      (introspectIndexed es s2 i).map (fun p => (s ++ p.1, p.2))
  case motive5 es tt i =>
    exact ∀ s s2, introspectTuple es (s ++ s2) i =
      (introspectTuple es s2 i).map (fun p => (s ++ p.1, p.2))
  case motive6 fs tt =>
    exact ∀ s s2, introspectNamed fs (s ++ s2) =
      (introspectNamed fs s2).map (fun p => (s ++ p.1, p.2))
  all_goals
    intro s s2
  all_goals
    simp_all [introspectFrom, introspectNamed, introspectTuple,
      introspectIndexed, introspectSet, introspectMap, List.append_assoc,
      List.map_map, Function.comp_def]

/-- Trail-shift property of the traversal: the trail supplied to
introspect_from is passed through unchanged, prepended to every trail the
visitor observes. -/
theorem introspectFrom_append (v : Value) (s s2 : Breadcrumbs) :
    introspectFrom v (s ++ s2) =
      (introspectFrom v s2).map (fun p => (s ++ p.1, p.2)) :=
  introspectFrom_append_aux v [] s s2

/-- When every candidate of the probe window from position n up to F253 is
taken, any terminating run of the probe loop started at a taken candidate
with counter n has emitted the exhaustion diagnostic (the counter reaches
255 before a free candidate can be found). -/
theorem genericIdentLoop_emits (names : List String)
    (h : ∀ k, k < 254 → ("F" ++ toString k) ∈ names) :
    ∀ m n ident, n + m = 254 → ident ∈ names →
      ∀ r, genericIdentLoop names ident n = Option.some r → r.2 = true := by
  intro m
  induction m with
  | zero =>
      intro n ident hn hmem r hr
      have hn' : n = 254 := by omega
      subst hn'
      rw [genericIdentLoop] at hr
      rw [if_pos hmem, if_pos (by omega : (254 : Nat) < 255)] at hr
      cases hinner : genericIdentLoop names ("F" ++ toString 254) (254 + 1) with
      | none => rw [hinner] at hr; simp at hr
      | some r2 =>
          rw [hinner] at hr
          simp only [Option.some.injEq] at hr
          rw [← hr]
          simp
  | succ m ih =>
      intro n ident hn hmem r hr
      have hlt : n < 254 := by omega
      rw [genericIdentLoop] at hr
      rw [if_pos hmem, if_pos (by omega : n < 255)] at hr
      cases hinner : genericIdentLoop names ("F" ++ toString n) (n + 1) with
      | none => rw [hinner] at hr; simp at hr
      | some r2 =>
          rw [hinner] at hr
          simp only [Option.some.injEq] at hr
          have h2 := ih (n + 1) ("F" ++ toString n) (by omega) (h n hlt) r2 hinner
          rw [← hr]
          simp [h2]

/-- When the probe window F0 to F253 is fully taken but F254 is free, the
probe loop started at a taken candidate terminates, chooses F254, and has
emitted the exhaustion diagnostic on the way. -/
theorem genericIdentLoop_finds (names : List String)
    (h : ∀ k, k < 254 → ("F" ++ toString k) ∈ names)
    (hfree : ("F" ++ toString 254) ∉ names) :
    ∀ m n ident, n + m = 254 → ident ∈ names →
      genericIdentLoop names ident n =
        Option.some ("F" ++ toString 254, true) := by
  intro m
  induction m with
  | zero =>
      intro n ident hn hmem
      have hn' : n = 254 := by omega
      subst hn'
      rw [genericIdentLoop]
      rw [if_pos hmem, if_pos (by omega : (254 : Nat) < 255)]
      have hinner : genericIdentLoop names ("F" ++ toString 254) (254 + 1) =
          Option.some ("F" ++ toString 254, false) := by
        rw [genericIdentLoop]
        rw [if_neg hfree]
      rw [hinner]
      simp
  | succ m ih =>
      intro n ident hn hmem
      have hlt : n < 254 := by omega
      rw [genericIdentLoop]
      rw [if_pos hmem, if_pos (by omega : n < 255)]
      rw [ih (n + 1) ("F" ++ toString n) (by omega) (h n hlt)]
      simp

/-!
The claims.
-/

/-- C1: for every struct with a derived Introspect implementation,
introspect_from invokes the visitor first on the struct itself with the
given trail, then on each field in declaration order, where each field
traversal starts from the parent trail extended by exactly one segment:
Field with the field name for a named field, TupleIndex with the position
for a positional field; a unit struct yields only the self visit. -/
theorem C1_struct_visit_order (n : String) (nfs : List (String × Value))
    (tfs : List Value) (t : Breadcrumbs) :
    introspectFrom (Value.structNamed n nfs) t
        = (t, Value.structNamed n nfs) ::
            nfs.flatMap
              (fun f => introspectFrom f.2 (t ++ [Breadcrumb.Field f.1]))
      ∧ introspectFrom (Value.structTuple n tfs) t
          = (t, Value.structTuple n tfs) ::
              tfs.enum.flatMap
                (fun p =>
                  introspectFrom p.2 (t ++ [Breadcrumb.TupleIndex p.1]))
      ∧ introspectFrom (Value.structUnit n) t = [(t, Value.structUnit n)] := by
  refine ⟨?_, ?_, ?_⟩
  · simp [introspectFrom, introspectNamed_eq]
  · simp [introspectFrom, introspectTuple_eq, List.enum]
  · simp [introspectFrom]

/-- C2 counterexample: the claim predicts that a named field of an active
enum variant is visited with the parent trail extended first by a Variant
segment naming the variant and then by the Field segment.  On the
StructEnum scenario of the test suite, the derived code produces the trail
holding only the Field segment, which differs from the trail the claim
predicts: recurse_variants emits the recurse_fields blocks unchanged and
never pushes a Variant breadcrumb. -/
theorem C2_counterexample :
    introspectFrom
        (Value.enumNamed "StructEnum" "Variant"
          [("foo", Value.leaf (Leaf.str "foo"))]) []
        = [([], Value.enumNamed "StructEnum" "Variant"
              [("foo", Value.leaf (Leaf.str "foo"))]),
           ([Breadcrumb.Field "foo"], Value.leaf (Leaf.str "foo"))]
      ∧ ([Breadcrumb.Field "foo"] : Breadcrumbs)
          ≠ [Breadcrumb.Variant "Variant", Breadcrumb.Field "foo"] := by
  constructor
  · simp [introspectFrom, introspectNamed]
  · simp

/-- C2 amended: for every enum with a derived Introspect implementation
whose active variant has fields, each visited field of the active variant
receives a trail extended from the parent trail by the Field or TupleIndex
segment of the field only; the derived implementation adds no Variant
segment. -/
theorem C2_enum_field_trails (n vn : String) (nfs : List (String × Value))
    (tfs : List Value) (t : Breadcrumbs) :
    introspectFrom (Value.enumNamed n vn nfs) t
        = (t, Value.enumNamed n vn nfs) ::
            nfs.flatMap
              (fun f => introspectFrom f.2 (t ++ [Breadcrumb.Field f.1]))
      ∧ introspectFrom (Value.enumTuple n vn tfs) t
          = (t, Value.enumTuple n vn tfs) ::
              tfs.enum.flatMap
                (fun p =>
                  introspectFrom p.2 (t ++ [Breadcrumb.TupleIndex p.1])) := by
  constructor
  · simp [introspectFrom, introspectNamed_eq]
  · simp [introspectFrom, introspectTuple_eq, List.enum]

/-- C3: for every enum with a derived Introspect implementation, only the
fields of the active variant of the value are visited: every visitor
invocation is either the self visit or lies in the traversal of one of the
active variant fields; a value of a fieldless variant yields exactly one
visitor invocation, the value itself. -/
theorem C3_enum_active_variant_only (n vn : String)
    (nfs : List (String × Value)) (tfs : List Value) (t : Breadcrumbs) :
    introspectFrom (Value.enumUnit n vn) t = [(t, Value.enumUnit n vn)]
      ∧ (∀ p ∈ introspectFrom (Value.enumNamed n vn nfs) t,
          p = (t, Value.enumNamed n vn nfs) ∨
            ∃ f ∈ nfs, p ∈ introspectFrom f.2 (t ++ [Breadcrumb.Field f.1]))
      ∧ (∀ p ∈ introspectFrom (Value.enumTuple n vn tfs) t,
          p = (t, Value.enumTuple n vn tfs) ∨
            ∃ q ∈ tfs.enum,
              p ∈ introspectFrom q.2 (t ++ [Breadcrumb.TupleIndex q.1])) := by
  refine ⟨by simp [introspectFrom], ?_, ?_⟩
  · intro p hp
    rw [show introspectFrom (Value.enumNamed n vn nfs) t
        = (t, Value.enumNamed n vn nfs) :: introspectNamed nfs t
      from by simp [introspectFrom]] at hp
    rcases List.mem_cons.mp hp with h | h
    · exact Or.inl h
    · rw [introspectNamed_eq] at h
      exact Or.inr (List.mem_flatMap.mp h)
  · intro p hp
    rw [show introspectFrom (Value.enumTuple n vn tfs) t
        = (t, Value.enumTuple n vn tfs) :: introspectTuple tfs t 0
      from by simp [introspectFrom]] at hp
    rcases List.mem_cons.mp hp with h | h
    · exact Or.inl h
    · rw [introspectTuple_eq] at h
      rcases List.mem_flatMap.mp h with ⟨q, hq, hpq⟩
      exact Or.inr ⟨q, by simpa [List.enum] using hq, hpq⟩

/-- C3 witness: the membership statements instantiated at a concrete enum
value with one named field. -/
theorem C3_witness :
    ([Breadcrumb.Field "a"], Value.leaf (Leaf.u8 5))
        = (([] : Breadcrumbs),
            Value.enumNamed "E" "V" [("a", Value.leaf (Leaf.u8 5))]) ∨
      ∃ f ∈ [("a", Value.leaf (Leaf.u8 5))],
        ([Breadcrumb.Field "a"], Value.leaf (Leaf.u8 5))
          ∈ introspectFrom f.2 (([] : Breadcrumbs) ++ [Breadcrumb.Field f.1]) :=
  (C3_enum_active_variant_only "E" "V" [("a", Value.leaf (Leaf.u8 5))] [] []).2.1
    ([Breadcrumb.Field "a"], Value.leaf (Leaf.u8 5))
    (by simp [introspectFrom, introspectNamed])

/-- C4: every built-in leaf implementation passes the supplied trail to the
visitor unchanged and performs exactly one visitor invocation, on the value
itself, with no child visits; the convenience entry point introspect is
introspect_from at the empty trail, so a leaf introspection visits exactly
one node with the empty trail. -/
theorem C4_leaf_single_visit (l : Leaf) (v : Value) (t : Breadcrumbs) :
    introspectFrom (Value.leaf l) t = [(t, Value.leaf l)]
      ∧ introspect (Value.leaf l) = [([], Value.leaf l)]
      ∧ introspect v = introspectFrom v [] := by
  refine ⟨by simp [introspectFrom], by simp [introspect, introspectFrom], rfl⟩

/-- C5: the trail supplied to any built-in introspect_from is never
mutated: the whole traversal from trail t is the traversal from the empty
trail with t prepended to every observed trail, so every visitor
invocation observes a trail carrying the originally supplied trail as an
unmodified prefix, with segments only ever appended below it. -/
theorem C5_supplied_trail_preserved (v : Value) (t : Breadcrumbs) :
    introspectFrom v t = (introspectFrom v []).map (fun p => (t ++ p.1, p.2))
      ∧ ∀ p ∈ introspectFrom v t, ∃ s, p.1 = t ++ s := by
  have hshift := introspectFrom_append v t []
  rw [List.append_nil] at hshift
  refine ⟨hshift, ?_⟩
  intro p hp
  rw [hshift] at hp
  obtain ⟨q, hq, rfl⟩ := List.mem_map.mp hp
  exact ⟨q.1, rfl⟩

/-- C5 witness: the prefix statement instantiated at a populated Option
introspected from a one-segment trail. -/
theorem C5_witness :
    ∃ s, ([Breadcrumb.SetMember, Breadcrumb.Variant "Some"] : Breadcrumbs)
        = [Breadcrumb.SetMember] ++ s :=
  (C5_supplied_trail_preserved (Value.optionV (Option.some (Value.leaf (Leaf.u8 7))))
      [Breadcrumb.SetMember]).2
    ([Breadcrumb.SetMember, Breadcrumb.Variant "Some"], Value.leaf (Leaf.u8 7))
    (by simp [introspectFrom])

/-- C6: a map introspection visits the map itself and then, for each entry
in iteration order, only the traversal of the entry value, from the parent
trail extended by an Index segment holding the Debug rendering of the key;
the key itself is never handed to the visitor and never recursed into, and
the embedding requires of a key nothing but its Debug rendering (MapKey
carries only that rendering and is not part of the Value universe of
introspectable nodes). -/
theorem C6_map_visits (entries : List (MapKey × Value)) (t : Breadcrumbs) :
    introspectFrom (Value.mapV entries) t
      = (t, Value.mapV entries) ::
          entries.flatMap
            (fun e =>
              introspectFrom e.2 (t ++ [Breadcrumb.Index e.1.debugRepr])) := by
  simp [introspectFrom, introspectMap_eq]

/-- C7: Option and Result visit the wrapper itself with the given trail
and then, only when a value is held, that value from the trail extended by
the Variant segment Some, Ok or Err; a None yields exactly one visitor
invocation. -/
theorem C7_option_result (v e : Value) (t : Breadcrumbs) :
    introspectFrom (Value.optionV Option.none) t
        = [(t, Value.optionV Option.none)]
      ∧ introspectFrom (Value.optionV (Option.some v)) t
          = (t, Value.optionV (Option.some v)) ::
              introspectFrom v (t ++ [Breadcrumb.Variant "Some"])
      ∧ introspectFrom (Value.resultV (Sum.inl v)) t
          = (t, Value.resultV (Sum.inl v)) ::
              introspectFrom v (t ++ [Breadcrumb.Variant "Ok"])
      ∧ introspectFrom (Value.resultV (Sum.inr e)) t
          = (t, Value.resultV (Sum.inr e)) ::
              introspectFrom e (t ++ [Breadcrumb.Variant "Err"]) := by
  refine ⟨?_, ?_, ?_, ?_⟩ <;> simp [introspectFrom]

/-- C10: in the serde_json adapter, a Null value yields exactly one
visitor invocation, the value itself with the given trail, with no child
visit and no Variant segment: the match of the Value implementation sends
Null to the default arm, which does nothing. -/
theorem C10_json_null_single_visit (t : Breadcrumbs) :
    jsonIntrospectFrom JValue.Null t = [(t, JNode.value JValue.Null)] := by
  simp [jsonIntrospectFrom]

/-- C8 counterexample: the claim asserts that introspecting the same value
in a fresh process yields the identical sequence even for hash-based
containers.  A hash-based set value is embedded by its members in
iteration order; the std HashSet iteration order depends on the per-process
random hasher state, so the same set contents can be presented in a
different order by a fresh process.  Two embeddings of the same two-member
set, with the two iteration orders, produce different visit sequences. -/
theorem C8_counterexample :
    ([Value.leaf (Leaf.u8 1), Value.leaf (Leaf.u8 2)] : List Value).Perm
        [Value.leaf (Leaf.u8 2), Value.leaf (Leaf.u8 1)]
      ∧ introspectFrom
            (Value.setV [Value.leaf (Leaf.u8 1), Value.leaf (Leaf.u8 2)]) []
          ≠ introspectFrom
              (Value.setV [Value.leaf (Leaf.u8 2), Value.leaf (Leaf.u8 1)]) [] := by
  constructor
  · exact List.Perm.swap _ _ _
  · simp [introspectFrom, introspectSet]

/-- C8 amended: introspection is a pure function of the value together
with the iteration order of its containers, so re-introspecting the same
in-memory value yields the identical ordered sequence; when a fresh
process presents the entries of a hash-based set or map in a permuted
iteration order, the resulting visit sequence differs from the original
only by the corresponding permutation of the per-entry visit blocks after
the self visit: each entry is still visited exactly once. -/
theorem C8_hash_order_permutation (es1 es2 : List Value)
    (ms1 ms2 : List (MapKey × Value)) (t : Breadcrumbs)
    (h1 : es1.Perm es2) (h2 : ms1.Perm ms2) :
    ((introspectFrom (Value.setV es1) t).tail).Perm
        ((introspectFrom (Value.setV es2) t).tail)
      ∧ ((introspectFrom (Value.mapV ms1) t).tail).Perm
          ((introspectFrom (Value.mapV ms2) t).tail) := by
  constructor
  · simp only [introspectFrom, List.tail_cons, introspectSet_eq]
    exact h1.flatMap_right _
  · simp only [introspectFrom, List.tail_cons, introspectMap_eq]
    exact h2.flatMap_right _

/-- C8 witness: the permutation statement instantiated at the two
iteration orders of a concrete two-member set and at the empty map. -/
theorem C8_witness :
    ((introspectFrom
          (Value.setV [Value.leaf (Leaf.u8 1), Value.leaf (Leaf.u8 2)]) []).tail).Perm
        ((introspectFrom
            (Value.setV [Value.leaf (Leaf.u8 2), Value.leaf (Leaf.u8 1)]) []).tail)
      ∧ ((introspectFrom (Value.mapV []) []).tail).Perm
          ((introspectFrom (Value.mapV []) []).tail) :=
  C8_hash_order_permutation
    [Value.leaf (Leaf.u8 1), Value.leaf (Leaf.u8 2)]
    [Value.leaf (Leaf.u8 2), Value.leaf (Leaf.u8 1)]
    [] [] [] (List.Perm.swap _ _ _) (List.Perm.refl [])

/-- C9: applying the derive macro to a union declaration emits no
implementation and reports the union diagnostic anchored at the type name;
applying it to a struct or enum declaration whose generic parameter names
exhaust the identifier probe window (F and every F0 to F253 taken) emits
no implementation, and when the first candidate beyond the window is free
the reported diagnostics are exactly the probe-exhaustion diagnostic
anchored at the generics of the declaration (when that candidate is also
taken the macro aborts, which likewise emits no implementation); and a
compilation run treats every derive input independently, so a failing
declaration does not affect the expansion of the others. -/
theorem C9_generation_failure :
    (∀ (name : String) (gens : List GenericParam),
        emitsImpl (DeriveInput.mk name gens DataShape.unionData) = false
          ∧ diagnosticsOf (DeriveInput.mk name gens DataShape.unionData)
              = [Diagnostic.mk (Span.typeName name) unionMsg])
      ∧ (∀ input : DeriveInput, input.data ≠ DataShape.unionData →
          "F" ∈ input.generics.map GenericParam.name →
          (∀ k, k < 254 →
            ("F" ++ toString k) ∈ input.generics.map GenericParam.name) →
          emitsImpl input = false)
      ∧ (∀ input : DeriveInput, input.data ≠ DataShape.unionData →
          "F" ∈ input.generics.map GenericParam.name →
          (∀ k, k < 254 →
            ("F" ++ toString k) ∈ input.generics.map GenericParam.name) →
          ("F" ++ toString 254) ∉ input.generics.map GenericParam.name →
          diagnosticsOf input = [Diagnostic.mk Span.genericsSpan probeMsg])
      ∧ (∀ xs ys : List DeriveInput,
          deriveAll (xs ++ ys) = deriveAll xs ++ deriveAll ys) := by
  refine ⟨?_, ?_, ?_, ?_⟩
  · intro name gens
    constructor <;> simp [emitsImpl, diagnosticsOf, derive_spectacle]
  · intro input hdata hF hwin
    obtain ⟨name, gens, data⟩ := input
    cases data with
    | unionData => exact absurd rfl hdata
    | structData f =>
        cases hc : create_generic_ident gens with
        | none => simp [emitsImpl, derive_spectacle, hc]
        | some r =>
            have hr2 : r.2 = true :=
              genericIdentLoop_emits (gens.map GenericParam.name) hwin
                254 0 "F" rfl hF r hc
            simp [emitsImpl, derive_spectacle, hc, hr2]
    | enumData vs =>
        cases hc : create_generic_ident gens with
        | none => simp [emitsImpl, derive_spectacle, hc]
        | some r =>
            have hr2 : r.2 = true :=
              genericIdentLoop_emits (gens.map GenericParam.name) hwin
                254 0 "F" rfl hF r hc
            simp [emitsImpl, derive_spectacle, hc, hr2]
  · intro input hdata hF hwin hfree
    obtain ⟨name, gens, data⟩ := input
    have hfind :
        create_generic_ident gens =
          Option.some ("F" ++ toString 254, true) :=
      genericIdentLoop_finds (gens.map GenericParam.name) hwin hfree
        254 0 "F" rfl hF
    cases data with
    | unionData => exact absurd rfl hdata
    | structData f => simp [diagnosticsOf, derive_spectacle, hfind]
    | enumData vs => simp [diagnosticsOf, derive_spectacle, hfind]
  · intro xs ys
    simp [deriveAll]

/-- C9 witness: the union conjunct instantiated at a concrete union
declaration, and the probe-exhaustion conjuncts instantiated at a concrete
struct declaration whose 255 generic parameters are named F and F0 to
F253. -/
theorem C9_witness :
    emitsImpl (DeriveInput.mk "Bad" [] DataShape.unionData) = false
      ∧ diagnosticsOf (DeriveInput.mk "Bad" [] DataShape.unionData)
          = [Diagnostic.mk (Span.typeName "Bad") unionMsg]
      ∧ emitsImpl
          (DeriveInput.mk "Exhausted"
            (GenericParam.typeParam "F" ::
              (List.range 254).map
                (fun k => GenericParam.typeParam ("F" ++ toString k)))
            (DataShape.structData FieldsShape.unitFields)) = false
      ∧ diagnosticsOf
          (DeriveInput.mk "Exhausted"
            (GenericParam.typeParam "F" ::
              (List.range 254).map
                (fun k => GenericParam.typeParam ("F" ++ toString k)))
            (DataShape.structData FieldsShape.unitFields))
          = [Diagnostic.mk Span.genericsSpan probeMsg] := by
  have hF :
      "F" ∈ (GenericParam.typeParam "F" ::
          (List.range 254).map
            (fun k => GenericParam.typeParam ("F" ++ toString k))).map
          GenericParam.name := by
    simp [GenericParam.name]
  have hwin :
      ∀ k, k < 254 →
        ("F" ++ toString k) ∈
          (GenericParam.typeParam "F" ::
            (List.range 254).map
              (fun k => GenericParam.typeParam ("F" ++ toString k))).map
            GenericParam.name := by
    intro k hk
    simp only [List.map_cons, List.map_map]
    refine List.mem_cons_of_mem _ ?_
    exact List.mem_map.mpr ⟨k, List.mem_range.mpr hk, rfl⟩
  have hfree :
      ("F" ++ toString 254) ∉
        (GenericParam.typeParam "F" ::
          (List.range 254).map
            (fun k => GenericParam.typeParam ("F" ++ toString k))).map
          GenericParam.name := by
    decide
  refine ⟨(C9_generation_failure.1 "Bad" []).1,
    (C9_generation_failure.1 "Bad" []).2, ?_, ?_⟩
  · exact C9_generation_failure.2.1 _ (by decide) hF hwin
  · exact C9_generation_failure.2.2.1 _ (by decide) hF hwin hfree

end Spectacle
